import Mathlib

/-!
Shallow embedding of `transcribe.py` (YouTube subtitle transcription tool).

Pure helpers (`parse_youtube_url`, `sanitize_filename`, `format_timestamp`,
`find_cookie_file`, `parse_cookies_from_browser`) are translated directly.
Effectful code (`download_audio`, `save_transcript`) is embedded with explicit
state: the file system is an association list, network activity is a trace of
events, and the outcome of each yt-dlp invocation is an oracle parameter.
Python floats are modelled as rationals.
-/

namespace Transcribe

/-- Characters accepted in a YouTube video id: the regex class `[a-zA-Z0-9_-]`. -/
def idChar (c : Char) : Bool :=
  c.isAlpha || c.isDigit || c = '_' || c = '-'

/-- An 11-character video identifier made of `idChar`s. -/
def validId (id : String) : Bool :=
  id.data.length == 11 && id.data.all idChar

/-- The optional-prefix alternatives of `(?:https?://)?(?:www\.)?` in the order a
backtracking regex engine tries them. -/
def fullPrefixes : List String :=
  ["https://www.", "https://", "http://www.", "http://", "www.", ""]

/-- The optional-prefix alternatives of `(?:https?://)?` for the `youtu.be` pattern. -/
def shortPrefixes : List String :=
  ["https://", "http://", ""]

/-- The literal alternatives (prefix ++ core) of one of the four regex patterns of
`parse_youtube_url`, as character lists. -/
def altsOf (prefixes : List String) (core : String) : List (List Char) :=
  prefixes.map fun pre => (pre ++ core).data

/-- The four patterns of `parse_youtube_url`, each as its list of literal
alternatives, in source order: `watch?v=`, `/embed/`, `/v/`, `youtu.be/`. -/
def patternAlts : List (List (List Char)) :=
  [ altsOf fullPrefixes "youtube.com/watch?v=",
    altsOf fullPrefixes "youtube.com/embed/",
    altsOf fullPrefixes "youtube.com/v/",
    altsOf shortPrefixes "youtu.be/" ]

/-- Try to match one literal alternative at the head of `rest`, capturing the
following 11 id characters, as the regex does at a fixed start position. -/
def matchHere (alt : List Char) (rest : List Char) : Option (List Char) :=
  if alt.isPrefixOf rest then
    let id := (rest.drop alt.length).take 11
    if id.length == 11 && id.all idChar then some id else none
  else none

/-- Try the alternatives of one pattern in order at a fixed start position. -/
def matchAlts (alts : List (List Char)) (rest : List Char) : Option (List Char) :=
  match alts with
  | [] => none
  | a :: rest2 =>
    match matchHere a rest with
    | some id => some id
    | none => matchAlts rest2 rest

/-- `re.search` for one pattern: try every start position left to right. -/
def searchFrom (alts : List (List Char)) (cs : List Char) : Option (List Char) :=
  match matchAlts alts cs with
  | some id => some id
  | none =>
    match cs with
    | [] => none
    | _ :: rest => searchFrom alts rest

/-- Try the four patterns in source order, returning the first search hit. -/
def firstMatch (ps : List (List (List Char))) (cs : List Char) : Option (List Char) :=
  match ps with
  | [] => none
  | a :: rest =>
    match searchFrom a cs with
    | some id => some id
    | none => firstMatch rest cs

/-- `parse_youtube_url`: extract the 11-character video id from a URL,
or `none` when no pattern matches. -/
def parse_youtube_url (url : String) : Option String :=
  (firstMatch patternAlts url.data).map fun cs => ⟨cs⟩

/-- Spec-side predicate: the string contains, at some position, one of the
pattern alternatives followed immediately by the (valid, 11-character) id. -/
def matchesShape (s id : String) : Bool :=
  validId id &&
    patternAlts.any fun a => a.any fun alt =>
      (List.range (s.data.length + 1)).any fun i =>
        (alt ++ id.data).isPrefixOf (s.data.drop i)

/-- Spec-side predicate: the string contains some shape occurrence with a valid
11-character id (without naming the id). -/
def someShape (s : String) : Bool :=
  patternAlts.any fun a => a.any fun alt =>
    (List.range (s.data.length + 1)).any fun i =>
      (matchHere alt (s.data.drop i)).isSome

/-- The regex class `[<>:"/\\|?*]` of `sanitize_filename`. -/
def illegalChar (c : Char) : Bool :=
  c = '<' || c = '>' || c = ':' || c = '"' || c = '/' || c = '\\' ||
    c = '|' || c = '?' || c = '*'

/-- `sanitize_filename`: replace each illegal character with an underscore and
truncate to 200 characters. -/
def sanitize_filename (filename : String) : String :=
  ⟨(filename.data.map fun c => if illegalChar c then '_' else c).take 200⟩

/-- Python `x % y` on numbers (sign of the divisor), used on nonnegative floats;
floats are modelled as rationals. -/
def pyMod (x y : ℚ) : ℚ := x - y * ⌊x / y⌋

/-- Python `int(x)`: truncation toward zero. -/
def truncInt (x : ℚ) : Int := if x < 0 then -⌊-x⌋ else ⌊x⌋

/-- Zero-pad a digit string on the left to width `w`. -/
def padZeros (w : Nat) (s : String) : String :=
  if s.length < w then String.mk (List.replicate (w - s.length) '0') ++ s else s

/-- Python's `f"{n:0wd}"` on an integer: zero-padding goes after the sign. -/
def padInt (w : Nat) (n : Int) : String :=
  if n < 0 then "-" ++ padZeros (w - 1) (toString (-n)) else padZeros w (toString n)

/-- `format_timestamp`: seconds to the SRT form `HH:MM:SS,mmm`. -/
def format_timestamp (seconds : ℚ) : String :=
  let hours : Int := ⌊seconds / 3600⌋
  let minutes : Int := ⌊pyMod seconds 3600 / 60⌋
  let secs : Int := truncInt (pyMod seconds 60)
  let millis : Int := truncInt (pyMod seconds 1 * 1000)
  padInt 2 hours ++ ":" ++ padInt 2 minutes ++ ":" ++ padInt 2 secs ++ "," ++ padInt 3 millis

/-- One segment of a Whisper transcription result: start time, end time, text. -/
structure Segment where
  start : ℚ
  stop : ℚ
  text : String

/-- The fields of a Whisper result dict consumed by this program. -/
structure TranscriptionResult where
  text : String
  language : String
  segments : List Segment

/-- One SRT block as written by `save_transcript`: sequence number, timestamp
line, trimmed segment text, blank separator. -/
def srt_block (i : Nat) (seg : Segment) : String :=
  toString i ++ "\n" ++ format_timestamp seg.start ++ " --> " ++
    format_timestamp seg.stop ++ "\n" ++ seg.text.trim ++ "\n\n"

/-- The full SRT file content: blocks numbered from `i` upward, one per segment. -/
def srt_content : Nat → List Segment → String
  | _, [] => ""
  | i, seg :: rest => srt_block i seg ++ srt_content (i + 1) rest

/-- The file system as an association list from path to content; the most
recent write is at the head. -/
abbrev FS := List (String × String)

def fsWrite (fs : FS) (path content : String) : FS := (path, content) :: fs

def fsRead (fs : FS) (path : String) : Option String := List.lookup path fs

/-- `save_transcript`: serialize a result next to `output_path` (suffix added
per format) and return the primary file's path, or fail on an unknown format
leaving the file system untouched. -/
def save_transcript (result : TranscriptionResult) (output_path : String)
    (output_format : String) (fs : FS) : FS × Except String String :=
  if output_format = "txt" then
    let output_file := output_path ++ ".txt"
    (fsWrite fs output_file result.text.trim, .ok output_file)
  else if output_format = "srt" then
    let output_file := output_path ++ ".srt"
    (fsWrite fs output_file (srt_content 1 result.segments), .ok output_file)
  else if output_format = "both" then
    let txt_file := output_path ++ ".txt"
    let fs1 := fsWrite fs txt_file result.text.trim
    let srt_file := output_path ++ ".srt"
    let fs2 := fsWrite fs1 srt_file (srt_content 1 result.segments)
    (fs2, .ok srt_file)
  else
    (fs, .error ("不支持的输出格式: " ++ output_format))

/-- A directory entry as seen by the cookie auto-discovery: name and mtime. -/
structure FileEntry where
  name : String
  mtime : Nat
deriving DecidableEq

/-- The cookies directory: whether it exists, and its entries in listing order. -/
structure Dir where
  present : Bool
  files : List FileEntry

/-- Membership in `pathlib.Path.glob("*.txt")`: any name ending in `.txt`
(pathlib's glob, unlike the `glob` module, also matches dot-hidden files). -/
def isTxt (e : FileEntry) : Bool :=
  e.name.endsWith ".txt"

/-- Head of the stable descending-mtime sort: the first entry (in listing
order) attaining the maximal mtime. -/
def pickLatest : FileEntry → List FileEntry → FileEntry
  | best, [] => best
  | best, e :: rest => pickLatest (if best.mtime < e.mtime then e else best) rest

/-- `find_cookie_file`: prefer the literal `cookies.txt`, else the most
recently modified `*.txt`, else nothing. -/
def find_cookie_file (search_dir : Dir) : Option FileEntry :=
  if !search_dir.present then none
  else
    match search_dir.files.find? (fun e => e.name == "cookies.txt") with
    | some e => some e
    | none =>
      match search_dir.files.filter isTxt with
      | [] => none
      | h :: t => some (pickLatest h t)

/-- `parse_cookies_from_browser`: `browser` or `browser:profile`, trimmed;
`none` on an empty/blank spec or empty browser name. -/
def parse_cookies_from_browser (spec : String) : Option (String × Option String) :=
  if spec = "" then none
  else
    let s := spec.trim
    if s = "" then none
    else if s.contains ':' then
      match s.splitOn ":" with
      | [] => none
      | b :: rest =>
        let browser := b.trim
        let profile := (String.intercalate ":" rest).trim
        if browser ≠ "" ∧ profile ≠ "" then some (browser, some profile)
        else if browser ≠ "" then some (browser, none)
        else none
    else some (s, none)

/-- The cookie source `download_audio` ends up passing to yt-dlp: a cookie
file (`cookiefile`) or a browser spec (`cookiesfrombrowser`). -/
inductive CookieSource where
  | file (path : String)
  | browser (spec : String × Option String)
deriving DecidableEq

/-- Python truthiness of an optional string argument. -/
def truthy : Option String → Bool
  | none => false
  | some s => s != ""

/-- The cookie-resolution prologue of `download_audio` (lines 245-262):
explicit file (fatal if absent), else browser spec, else auto-discovery. -/
def resolve_cookies (fileExists : String → Bool)
    (cookies_path cookies_from_browser : Option String) (default_dir : Dir) :
    Except String (Option CookieSource) :=
  if truthy cookies_path then
    let p := cookies_path.getD ""
    if fileExists p then .ok (some (.file p))
    else .error ("Cookies 文件不存在: " ++ p)
  else if truthy cookies_from_browser then
    match parse_cookies_from_browser (cookies_from_browser.getD "") with
    | some t => .ok (some (.browser t))
    | none => .ok none
  else
    match find_cookie_file default_dir with
    | some e => .ok (some (.file e.name))
    | none => .ok none

/-- What one `ydl.download` invocation does: raise with a message, or complete
with the expected `.mp3` file present or absent. -/
inductive AttemptOutcome where
  | raises (msg : String)
  | completes (fileOk : Bool)
deriving DecidableEq

/-- The fixed client-spoofing fallback list, in source order; `[]` is the
empty `extractor_args` (default client). -/
def client_configs : List (List String) :=
  [["ios", "web"], ["android", "web"], ["tv", "web"], []]

/-- The message of the aggregate exception raised after all attempts fail;
`str(None)` is `"None"`. -/
def aggregate_message : Option String → String
  | some m => "所有下载方式都失败。最后错误: " ++ m
  | none => "所有下载方式都失败。最后错误: None"

/-- The retry loop of `download_audio`: walk the remaining configurations,
indexed from `i`, carrying the last caught error; return the list of attempt
indices performed and the outcome. -/
def download_loop (audio_path : String) (oracle : Nat → AttemptOutcome) :
    Nat → List (List String) → Option String → List Nat × Except String String
  | _, [], last_error => ([], .error (aggregate_message last_error))
  | i, _ :: rest, last_error =>
    match oracle i with
    | .completes true => ([i], .ok audio_path)
    | .completes false =>
      let r := download_loop audio_path oracle (i + 1) rest last_error
      (i :: r.1, r.2)
    | .raises m =>
      let r := download_loop audio_path oracle (i + 1) rest (some m)
      (i :: r.1, r.2)

/-- Network activity of `download_audio`: the metadata-only extraction, and
each numbered download attempt. -/
inductive NetEvent where
  | metaFetch
  | attempt (i : Nat)
deriving DecidableEq

/-- `download_audio`: resolve cookies (fatal if the explicit file is absent),
fetch metadata for the title, then iterate `client_configs`; on success return
`(audio path, title)`. Returns the trace of network events alongside. Each
per-attempt exception is caught (and printed truncated to 120 characters,
display only) and the loop continues. -/
def download_audio (fileExists : String → Bool) (url : String)
    (output_dir : String)
    (cookies_path cookies_from_browser : Option String) (default_dir : Dir)
    (title : String) (oracle : Nat → AttemptOutcome) :
    List NetEvent × Except String (String × String) :=
  match resolve_cookies fileExists cookies_path cookies_from_browser default_dir with
  | .error e => ([], .error e)
  | .ok _ =>
    let safe_title := sanitize_filename title
    let audio_path := output_dir ++ "/" ++ safe_title ++ ".mp3"
    let r := download_loop audio_path oracle 0 client_configs none
    (NetEvent.metaFetch :: r.1.map NetEvent.attempt, r.2.map fun p => (p, title))

/-- Concatenation of a list of strings, in order. -/
def concatAll : List String → String
  | [] => ""
  | s :: rest => s ++ concatAll rest

/-! ## Supporting lemmas -/

theorem srt_content_eq_blocks (k : Nat) (segs : List Segment) :
    srt_content k segs =
      concatAll ((List.range segs.length).zipWith
        (fun j seg => srt_block (k + j) seg) segs) := by
  induction segs generalizing k with
  | nil => rfl
  | cons sg t ih =>
    have hr : List.range (t.length + 1) = 0 :: (List.range t.length).map (· + 1) :=
      List.range_succ_eq_map t.length
    have harg : (fun j sg2 => srt_block (k + (j + 1)) sg2) =
        (fun j sg2 => srt_block ((k + 1) + j) sg2) := by
      funext j sg2
      congr 1
      omega
    simp only [List.length_cons, hr, List.zipWith_cons_cons, List.zipWith_map_left,
      concatAll, Nat.add_zero, srt_content, ih (k + 1)]
    rw [show (fun a b => srt_block (k + (a + 1)) b) =
      (fun j sg2 => srt_block ((k + 1) + j) sg2) from harg]

theorem append_txt_ne_srt (b : String) : b ++ ".txt" ≠ b ++ ".srt" := by
  intro h
  have h2 := congrArg String.data h
  rw [String.data_append, String.data_append] at h2
  have h3 := List.append_cancel_left h2
  exact absurd h3 (by decide)

/-! ## Claim theorems -/

/-- C4: for every input string, the output of `sanitize_filename` contains none
of the characters `<>:"/\|?*` and has length at most 200. -/
theorem sanitize_filename_legal_and_bounded (s : String) :
    (∀ c ∈ (sanitize_filename s).data, illegalChar c = false) ∧
    (sanitize_filename s).length ≤ 200 := by
  constructor
  · intro c hc
    have hmem : c ∈ s.data.map fun c => if illegalChar c then '_' else c :=
      List.take_subset _ _ hc
    obtain ⟨a, _, rfl⟩ := List.mem_map.mp hmem
    cases hia : illegalChar a with
    | true =>
      simp only [hia, if_true]
      decide
    | false => simp [hia]
  · have h : (sanitize_filename s).length =
        ((s.data.map fun c => if illegalChar c then '_' else c).take 200).length := rfl
    rw [h, List.length_take]
    omega

/-- C4 witness: instantiated at `"a<b"` and the character `'a'`. -/
theorem sanitize_filename_legal_and_bounded_witness : illegalChar 'a' = false :=
  (sanitize_filename_legal_and_bounded "a<b").1 'a' (by decide)

/-- C9: `sanitize_filename` replaces each illegal character with an underscore
rather than deleting it: the output has length `min (input length) 200`, each
kept position is the original character or an underscore substituted for an
illegal one, and a non-empty input yields a non-empty output. -/
theorem sanitize_filename_replaces_pointwise (s : String) :
    (sanitize_filename s).length = min s.length 200 ∧
    (∀ i (h1 : i < s.data.length) (h3 : i < (sanitize_filename s).data.length),
      (sanitize_filename s).data[i] =
        if illegalChar s.data[i] then '_' else s.data[i]) ∧
    (s ≠ "" → sanitize_filename s ≠ "") := by
  refine ⟨?_, ?_, ?_⟩
  · have h : (sanitize_filename s).length =
        ((s.data.map fun c => if illegalChar c then '_' else c).take 200).length := rfl
    have hl : s.length = s.data.length := rfl
    rw [h, List.length_take, List.length_map, hl]
    omega
  · intro i h1 h3
    have h : (sanitize_filename s).data =
        (s.data.map fun c => if illegalChar c then '_' else c).take 200 := rfl
    simp [h, List.getElem_take]
  · intro hne hcontra
    apply hne
    have hdata : (sanitize_filename s).data = [] := by rw [hcontra]
    have h : (sanitize_filename s).data =
        (s.data.map fun c => if illegalChar c then '_' else c).take 200 := rfl
    rw [h, List.take_eq_nil_iff] at hdata
    have hsd : s.data = [] := by
      rcases hdata with h' | h'
      · exact absurd h' (by decide)
      · exact List.map_eq_nil_iff.mp h'
    cases s with
    | mk d => cases hsd; rfl

/-- C9 witness: instantiated at `"a"`. -/
theorem sanitize_filename_replaces_pointwise_witness : sanitize_filename "a" ≠ "" :=
  (sanitize_filename_replaces_pointwise "a").2.2 (by decide)

/-- C8: `format_timestamp` renders 0 seconds as `00:00:00,000` and 3661.5
seconds as `01:01:01,500`. -/
theorem format_timestamp_examples :
    format_timestamp 0 = "00:00:00,000" ∧
    format_timestamp (7323 / 2) = "01:01:01,500" := by
  constructor
  · have h : ((0 : ℚ) / 3600) = 0 := by norm_num
    simp only [format_timestamp, pyMod, truncInt, h]
    norm_num
    decide
  · have h1 : ⌊(7323 / 2 : ℚ) / 3600⌋ = 1 := by
      rw [Int.floor_eq_iff] <;> norm_num
    have h2 : ⌊(7323 / 2 : ℚ) / 60⌋ = 61 := by
      rw [Int.floor_eq_iff] <;> norm_num
    have h3 : ⌊(7323 / 2 : ℚ) / 1⌋ = 3661 := by
      rw [Int.floor_eq_iff] <;> norm_num
    have h4 : ⌊(7323 / 2 - 3600 * 1 : ℚ) / 60⌋ = 1 := by
      rw [Int.floor_eq_iff] <;> norm_num
    simp only [format_timestamp, pyMod, truncInt, h1, h2, h3]
    norm_num [h4]
    decide

/-- C5: for every result and every format tag other than `txt`, `srt` and
`both`, `save_transcript` fails with an unsupported-format error and leaves the
file system untouched. -/
theorem save_transcript_unsupported (result : TranscriptionResult)
    (output_path output_format : String) (fs : FS)
    (h1 : output_format ≠ "txt") (h2 : output_format ≠ "srt")
    (h3 : output_format ≠ "both") :
    save_transcript result output_path output_format fs =
      (fs, .error ("不支持的输出格式: " ++ output_format)) := by
  simp [save_transcript, h1, h2, h3]

/-- C5 witness: instantiated at the format tag `"json"`. -/
theorem save_transcript_unsupported_witness :
    save_transcript ⟨"hi", "en", []⟩ "t" "json" [] =
      ([], .error ("不支持的输出格式: " ++ "json")) :=
  save_transcript_unsupported ⟨"hi", "en", []⟩ "t" "json" []
    (by decide) (by decide) (by decide)

/-- C6: writing with format `both` stores the trimmed `text` field under the
`.txt` path, stores under the `.srt` path one block per segment numbered
1, 2, ... in order (each block carrying the segment's timestamps and trimmed
text), and returns the `.srt` path as primary. -/
theorem save_transcript_both_roundtrip (result : TranscriptionResult)
    (base : String) (fs : FS) :
    (save_transcript result base "both" fs).2 = .ok (base ++ ".srt") ∧
    fsRead (save_transcript result base "both" fs).1 (base ++ ".txt") =
      some result.text.trim ∧
    fsRead (save_transcript result base "both" fs).1 (base ++ ".srt") =
      some (srt_content 1 result.segments) ∧
    srt_content 1 result.segments =
      concatAll ((List.range result.segments.length).zipWith
        (fun j seg => srt_block (1 + j) seg) result.segments) := by
  have hne : ((base ++ ".txt") == (base ++ ".srt")) = false :=
    beq_eq_false_iff_ne.mpr (append_txt_ne_srt base)
  refine ⟨?_, ?_, ?_, srt_content_eq_blocks 1 result.segments⟩
  · simp [save_transcript]
  · simp [save_transcript, fsRead, fsWrite, List.lookup, hne]
  · simp [save_transcript, fsRead, fsWrite, List.lookup]

theorem download_loop_ok_exists (path : String) (oracle : Nat → AttemptOutcome)
    (cfgs : List (List String)) :
    ∀ (i : Nat) (e : Option String) (out : String),
      (download_loop path oracle i cfgs e).2 = .ok out →
      ∃ j, i ≤ j ∧ j < i + cfgs.length ∧ oracle j = .completes true := by
  induction cfgs with
  | nil =>
    intro i e out h
    simp [download_loop] at h
  | cons c t ih =>
    intro i e out h
    cases ho : oracle i with
    | raises m =>
      simp only [download_loop, ho] at h
      obtain ⟨j, hj1, hj2, hj3⟩ := ih (i + 1) (some m) out h
      exact ⟨j, by omega, by simp only [List.length_cons]; omega, hj3⟩
    | completes ok =>
      cases ok with
      | true =>
        exact ⟨i, Nat.le_refl i, by simp only [List.length_cons]; omega, ho⟩
      | false =>
        simp only [download_loop, ho] at h
        obtain ⟨j, hj1, hj2, hj3⟩ := ih (i + 1) e out h
        exact ⟨j, by omega, by simp only [List.length_cons]; omega, hj3⟩

theorem download_loop_all_nofile (path : String) (oracle : Nat → AttemptOutcome)
    (cfgs : List (List String)) :
    ∀ (i : Nat) (e : Option String),
      (∀ j, i ≤ j → j < i + cfgs.length → oracle j = .completes false) →
      (download_loop path oracle i cfgs e).2 = .error (aggregate_message e) := by
  induction cfgs with
  | nil =>
    intro i e _
    simp [download_loop]
  | cons c t ih =>
    intro i e h
    have h0 : oracle i = .completes false :=
      h i (Nat.le_refl i) (by simp only [List.length_cons]; omega)
    simp only [download_loop, h0]
    exact ih (i + 1) e fun j hj1 hj2 =>
      h j (by omega) (by simp only [List.length_cons]; omega)

/-- C1: the fallback loop tries the four client configurations in the fixed
listed order; when the first three raise and the fourth completes with the
expected file present, the call returns the audio path with no earlier error
surfacing, and when all four raise it returns the single aggregate error built
from the last failure's message. -/
theorem download_audio_client_fallback
    (fe : String → Bool) (url odir : String) (cp b : Option String) (d : Dir)
    (title : String)
    (oracle : Nat → AttemptOutcome) (cfg : Option CookieSource)
    (m0 m1 m2 m3 : String)
    (hres : resolve_cookies fe cp b d = .ok cfg)
    (h0 : oracle 0 = .raises m0) (h1 : oracle 1 = .raises m1)
    (h2 : oracle 2 = .raises m2) :
    (oracle 3 = .completes true →
      download_audio fe url odir cp b d title oracle =
        ([.metaFetch, .attempt 0, .attempt 1, .attempt 2, .attempt 3],
         .ok (odir ++ "/" ++ sanitize_filename title ++ ".mp3", title))) ∧
    (oracle 3 = .raises m3 →
      download_audio fe url odir cp b d title oracle =
        ([.metaFetch, .attempt 0, .attempt 1, .attempt 2, .attempt 3],
         .error (aggregate_message (some m3)))) := by
  constructor <;> intro h3 <;>
    simp [download_audio, hres, client_configs, download_loop, h0, h1, h2, h3,
      Except.map]

/-- C1 witness: three raising attempts, then a successful default attempt. -/
theorem download_audio_client_fallback_witness :
    download_audio (fun _ => false) "u" "tmp" none none ⟨false, []⟩ "t"
        (fun i => if i = 3 then .completes true else .raises ("e" ++ toString i)) =
      ([.metaFetch, .attempt 0, .attempt 1, .attempt 2, .attempt 3],
       .ok ("tmp" ++ "/" ++ sanitize_filename "t" ++ ".mp3", "t")) :=
  (download_audio_client_fallback (fun _ => false) "u" "tmp" none none
    ⟨false, []⟩ "t"
    (fun i => if i = 3 then .completes true else .raises ("e" ++ toString i))
    none ("e" ++ toString 0) ("e" ++ toString 1) ("e" ++ toString 2) ""
    rfl rfl rfl rfl).1 rfl

/-- C7: with an explicit cookie file path that does not exist, `download_audio`
fails with the file-not-found error before any network event, in particular
before the metadata-only extraction. -/
theorem download_audio_missing_cookie_file
    (fe : String → Bool) (url odir : String) (p : String) (b : Option String)
    (d : Dir) (title : String) (oracle : Nat → AttemptOutcome)
    (hp : p ≠ "") (hfe : fe p = false) :
    download_audio fe url odir (some p) b d title oracle =
      ([], .error ("Cookies 文件不存在: " ++ p)) := by
  simp [download_audio, resolve_cookies, truthy, hp, hfe]

/-- C7 witness: a missing `c.txt` with a browser spec also present. -/
theorem download_audio_missing_cookie_file_witness :
    download_audio (fun _ => false) "u" "tmp" (some "c.txt") (some "chrome")
        ⟨true, []⟩ "t" (fun _ => .completes true) =
      ([], .error ("Cookies 文件不存在: " ++ "c.txt")) :=
  download_audio_missing_cookie_file (fun _ => false) "u" "tmp" "c.txt"
    (some "chrome") ⟨true, []⟩ "t" (fun _ => .completes true) (by decide) rfl

/-- C10: `download_audio` returns a path only when some attempt completed with
the expected file present; an attempt that completes without the file is a
failure that leaves the last error unchanged, so if every attempt ends that way
the aggregate error carries no underlying detail (`last_error` is `None`). -/
theorem download_audio_requires_file
    (fe : String → Bool) (url odir : String) (cp b : Option String) (d : Dir)
    (title : String)
    (oracle : Nat → AttemptOutcome) (cfg : Option CookieSource)
    (out : String × String)
    (hres : resolve_cookies fe cp b d = .ok cfg) :
    ((download_audio fe url odir cp b d title oracle).2 = .ok out →
      ∃ i, i < 4 ∧ oracle i = .completes true) ∧
    ((∀ i, i < 4 → oracle i = .completes false) →
      (download_audio fe url odir cp b d title oracle).2 =
        .error (aggregate_message none)) := by
  constructor
  · intro h
    simp only [download_audio, hres] at h
    cases hr : (download_loop (odir ++ "/" ++ sanitize_filename title ++ ".mp3")
        oracle 0 client_configs none).2 with
    | error e =>
      rw [hr] at h
      simp [Except.map] at h
    | ok pth =>
      obtain ⟨j, _, hj2, hj3⟩ :=
        download_loop_ok_exists (odir ++ "/" ++ sanitize_filename title ++ ".mp3")
          oracle client_configs 0 none pth hr
      refine ⟨j, ?_, hj3⟩
      simpa [client_configs] using hj2
  · intro h
    simp only [download_audio, hres]
    rw [download_loop_all_nofile (odir ++ "/" ++ sanitize_filename title ++ ".mp3")
      oracle client_configs 0 none
      (fun j _ hj => h j (by simpa [client_configs] using hj))]
    simp [Except.map]

/-- C10 witness: every attempt completes but the expected file never appears;
the aggregate error carries no underlying detail. -/
theorem download_audio_requires_file_witness :
    (download_audio (fun _ => false) "u" "tmp" none none ⟨false, []⟩ "t"
        (fun _ => .completes false)).2 = .error (aggregate_message none) :=
  (download_audio_requires_file (fun _ => false) "u" "tmp" none none
    ⟨false, []⟩ "t"
    (fun _ => .completes false) none ("t.mp3", "t") rfl).2 fun _ _ => rfl

theorem pickLatest_mem (l : List FileEntry) : ∀ b, pickLatest b l ∈ b :: l := by
  induction l with
  | nil =>
    intro b
    simp [pickLatest]
  | cons e t ih =>
    intro b
    simp only [pickLatest]
    by_cases hbe : b.mtime < e.mtime
    · simp only [if_pos hbe]
      exact List.mem_cons.mpr (Or.inr (ih e))
    · simp only [if_neg hbe]
      rcases List.mem_cons.mp (ih b) with h | h
      · exact List.mem_cons.mpr (Or.inl h)
      · exact List.mem_cons.mpr (Or.inr (List.mem_cons.mpr (Or.inr h)))

theorem pickLatest_max (l : List FileEntry) :
    ∀ b f, f ∈ b :: l → f.mtime ≤ (pickLatest b l).mtime := by
  induction l with
  | nil =>
    intro b f hf
    rcases List.mem_cons.mp hf with rfl | h
    · exact Nat.le_refl _
    · exact absurd h (List.not_mem_nil f)
  | cons e t ih =>
    intro b f hf
    simp only [pickLatest]
    by_cases hbe : b.mtime < e.mtime
    · simp only [if_pos hbe]
      rcases List.mem_cons.mp hf with rfl | hm
      · exact Nat.le_trans (Nat.le_of_lt hbe) (ih e e (List.mem_cons_self e t))
      · exact ih e f hm
    · simp only [if_neg hbe]
      rcases List.mem_cons.mp hf with h | hm
      · rw [h]
        exact ih b b (List.mem_cons_self b t)
      · rcases List.mem_cons.mp hm with h2 | hm2
        · rw [h2]
          exact Nat.le_trans (Nat.le_of_not_lt hbe) (ih b b (List.mem_cons_self b t))
        · exact ih b f (List.mem_cons.mpr (Or.inr hm2))

/-- C3: cookie resolution priority. An explicit (existing) cookie file always
wins, even when a browser spec is also given; with neither given,
auto-discovery returns the literal `cookies.txt` if present, otherwise a most
recently modified `*.txt` file, otherwise no cookie source; exactly one source
is ever active. -/
theorem cookie_resolution_priority
    (fe : String → Bool) (p : String) (b : Option String) (d : Dir) :
    (p ≠ "" → fe p = true →
      resolve_cookies fe (some p) b d = .ok (some (.file p))) ∧
    (resolve_cookies fe none none d =
      .ok ((find_cookie_file d).map fun e => CookieSource.file e.name)) ∧
    ((∃ e ∈ d.files, e.name = "cookies.txt") → d.present = true →
      ∃ e2, find_cookie_file d = some e2 ∧ e2.name = "cookies.txt") ∧
    (d.present = true → (∀ e ∈ d.files, e.name ≠ "cookies.txt") →
      ∀ e2, find_cookie_file d = some e2 →
        isTxt e2 = true ∧ e2 ∈ d.files ∧
          ∀ f ∈ d.files, isTxt f = true → f.mtime ≤ e2.mtime) ∧
    (d.present = true → (∀ e ∈ d.files, e.name ≠ "cookies.txt") →
      (∃ c ∈ d.files, isTxt c = true) → (find_cookie_file d).isSome = true) ∧
    (d.present = false → find_cookie_file d = none) ∧
    (d.present = true → (∀ e ∈ d.files, e.name ≠ "cookies.txt") →
      d.files.filter isTxt = [] → find_cookie_file d = none) := by
  refine ⟨?_, ?_, ?_, ?_, ?_, ?_, ?_⟩
  · intro hp hfe
    simp [resolve_cookies, truthy, hp, hfe]
  · cases h : find_cookie_file d <;> simp [resolve_cookies, truthy, h]
  · rintro ⟨e, he, hn⟩ hd
    have hsome : (d.files.find? fun e => e.name == "cookies.txt").isSome :=
      List.find?_isSome.mpr ⟨e, he, by simp [hn]⟩
    obtain ⟨e2, he2⟩ := Option.isSome_iff_exists.mp hsome
    refine ⟨e2, ?_, ?_⟩
    · simp [find_cookie_file, hd, he2]
    · simpa using List.find?_some he2
  · intro hd hno e2 hfind
    have hnone : (d.files.find? fun e => e.name == "cookies.txt") = none :=
      List.find?_eq_none.mpr fun x hx => by simp [hno x hx]
    simp only [find_cookie_file, hd, hnone, Bool.not_true, if_false] at hfind
    cases hfilter : d.files.filter isTxt with
    | nil =>
      rw [hfilter] at hfind
      simp at hfind
    | cons h t =>
      rw [hfilter] at hfind
      have he2 : e2 = pickLatest h t := by
        simpa using hfind.symm
      subst he2
      have hmem : pickLatest h t ∈ d.files.filter isTxt := by
        rw [hfilter]
        exact pickLatest_mem t h
      refine ⟨(List.mem_filter.mp hmem).2, (List.mem_filter.mp hmem).1, ?_⟩
      intro f hf hft
      have : f ∈ h :: t := by
        rw [← hfilter]
        exact List.mem_filter.mpr ⟨hf, hft⟩
      exact pickLatest_max t h f this
  · rintro hd hno ⟨c, hc, hct⟩
    have hnone : (d.files.find? fun e => e.name == "cookies.txt") = none :=
      List.find?_eq_none.mpr fun x hx => by simp [hno x hx]
    have hcf : c ∈ d.files.filter isTxt := List.mem_filter.mpr ⟨hc, hct⟩
    cases hfilter : d.files.filter isTxt with
    | nil =>
      rw [hfilter] at hcf
      exact absurd hcf (List.not_mem_nil c)
    | cons h t =>
      simp [find_cookie_file, hd, hnone, hfilter]
  · intro hd
    simp [find_cookie_file, hd]
  · intro hd hno hfil
    have hnone : (d.files.find? fun e => e.name == "cookies.txt") = none :=
      List.find?_eq_none.mpr fun x hx => by simp [hno x hx]
    simp [find_cookie_file, hd, hnone, hfil]

/-- C3 witness: both an existing explicit file and a browser spec are given;
the file wins. -/
theorem cookie_resolution_priority_witness :
    resolve_cookies (fun _ => true) (some "c.txt") (some "chrome")
        ⟨true, [⟨"cookies.txt", 0⟩]⟩ = .ok (some (.file "c.txt")) :=
  (cookie_resolution_priority (fun _ => true) "c.txt" (some "chrome")
    ⟨true, [⟨"cookies.txt", 0⟩]⟩).1 (by decide) rfl

theorem matchHere_some_iff (alt rest id : List Char) :
    matchHere alt rest = some id ↔
      (alt ++ id).isPrefixOf rest ∧ id.length = 11 ∧ id.all idChar = true := by
  constructor
  · intro h
    simp only [matchHere] at h
    by_cases hp : alt.isPrefixOf rest
    · rw [if_pos hp] at h
      by_cases hc : (((rest.drop alt.length).take 11).length == 11 &&
          ((rest.drop alt.length).take 11).all idChar) = true
      · rw [if_pos hc] at h
        injection h with h2
        subst h2
        obtain ⟨hlen, hall⟩ := Bool.and_eq_true_iff.mp hc
        obtain ⟨t, ht⟩ := List.isPrefixOf_iff_prefix.mp hp
        have hdrop : rest.drop alt.length = t := by
          rw [← ht]
          exact List.drop_left alt t
        refine ⟨?_, eq_of_beq hlen, hall⟩
        rw [List.isPrefixOf_iff_prefix, hdrop]
        exact ⟨t.drop 11, by rw [List.append_assoc, List.take_append_drop, ht]⟩
      · rw [if_neg hc] at h
        exact absurd h (by simp)
    · rw [if_neg hp] at h
      exact absurd h (by simp)
  · rintro ⟨hpre, hlen, hall⟩
    obtain ⟨r, hr⟩ := List.isPrefixOf_iff_prefix.mp hpre
    have hp : alt.isPrefixOf rest := by
      rw [List.isPrefixOf_iff_prefix]
      exact ⟨id ++ r, by rw [← List.append_assoc, hr]⟩
    have hdrop : rest.drop alt.length = id ++ r := by
      rw [← hr, List.append_assoc]
      exact List.drop_left alt (id ++ r)
    have htake : (rest.drop alt.length).take 11 = id := by
      rw [hdrop, ← hlen]
      exact List.take_left id r
    simp only [matchHere, if_pos hp, htake, hlen, hall]
    simp

theorem matchHere_nil (alt : List Char) : matchHere alt [] = none := by
  by_cases h : alt.isPrefixOf ([] : List Char)
  · simp [matchHere, h]
  · simp [matchHere, h]

theorem matchAlts_none_iff (alts : List (List Char)) (rest : List Char) :
    matchAlts alts rest = none ↔ ∀ alt ∈ alts, matchHere alt rest = none := by
  induction alts with
  | nil => simp [matchAlts]
  | cons a t ih =>
    simp only [matchAlts]
    cases h : matchHere a rest with
    | some id => simp [h, List.forall_mem_cons]
    | none => simp [h, ih, List.forall_mem_cons]

theorem matchAlts_some_mem (alts : List (List Char)) (rest id : List Char)
    (h : matchAlts alts rest = some id) :
    ∃ alt ∈ alts, matchHere alt rest = some id := by
  induction alts with
  | nil => simp [matchAlts] at h
  | cons a t ih =>
    simp only [matchAlts] at h
    cases ha : matchHere a rest with
    | some id2 =>
      rw [ha] at h
      exact ⟨a, List.mem_cons_self a t, ha.trans h⟩
    | none =>
      rw [ha] at h
      obtain ⟨alt, hm, hh⟩ := ih h
      exact ⟨alt, List.mem_cons.mpr (Or.inr hm), hh⟩

theorem searchFrom_none_iff (alts : List (List Char)) (cs : List Char) :
    searchFrom alts cs = none ↔ ∀ i, matchAlts alts (cs.drop i) = none := by
  induction cs with
  | nil =>
    simp only [searchFrom]
    cases h : matchAlts alts [] with
    | some id => simp [h, List.drop_nil]
    | none => simp [h, List.drop_nil]
  | cons c rest ih =>
    simp only [searchFrom]
    cases h : matchAlts alts (c :: rest) with
    | some id =>
      simp only [h]
      constructor
      · intro hco
        exact absurd hco (by simp)
      · intro hall
        have h0 := hall 0
        rw [List.drop_zero, h] at h0
        exact absurd h0 (by simp)
    | none =>
      simp only [h]
      rw [ih]
      constructor
      · intro hall i
        cases i with
        | zero =>
          rw [List.drop_zero, h]
        | succ n =>
          rw [List.drop_succ_cons]
          exact hall n
      · intro hall i
        have := hall (i + 1)
        rw [List.drop_succ_cons] at this
        exact this

theorem searchFrom_some_exists (alts : List (List Char)) (cs id : List Char)
    (h : searchFrom alts cs = some id) :
    ∃ i, i < cs.length + 1 ∧ matchAlts alts (cs.drop i) = some id := by
  induction cs with
  | nil =>
    simp only [searchFrom] at h
    cases hm : matchAlts alts [] with
    | some id2 =>
      rw [hm] at h
      exact ⟨0, by omega, by rw [List.drop_nil]; exact hm.trans h⟩
    | none =>
      rw [hm] at h
      exact absurd h (by simp)
  | cons c rest ih =>
    simp only [searchFrom] at h
    cases hm : matchAlts alts (c :: rest) with
    | some id2 =>
      rw [hm] at h
      exact ⟨0, by omega, by rw [List.drop_zero]; exact hm.trans h⟩
    | none =>
      rw [hm] at h
      obtain ⟨i, hi, hmi⟩ := ih h
      refine ⟨i + 1, ?_, by rw [List.drop_succ_cons]; exact hmi⟩
      simp only [List.length_cons]
      omega

theorem firstMatch_none_iff (ps : List (List (List Char))) (cs : List Char) :
    firstMatch ps cs = none ↔ ∀ a ∈ ps, searchFrom a cs = none := by
  induction ps with
  | nil => simp [firstMatch]
  | cons a t ih =>
    simp only [firstMatch]
    cases h : searchFrom a cs with
    | some id => simp [h, List.forall_mem_cons]
    | none => simp [h, ih, List.forall_mem_cons]

theorem firstMatch_some_mem (ps : List (List (List Char))) (cs id : List Char)
    (h : firstMatch ps cs = some id) :
    ∃ a ∈ ps, searchFrom a cs = some id := by
  induction ps with
  | nil => simp [firstMatch] at h
  | cons a t ih =>
    simp only [firstMatch] at h
    cases ha : searchFrom a cs with
    | some id2 =>
      rw [ha] at h
      exact ⟨a, List.mem_cons_self a t, ha.trans h⟩
    | none =>
      rw [ha] at h
      obtain ⟨a2, hm, hh⟩ := ih h
      exact ⟨a2, List.mem_cons.mpr (Or.inr hm), hh⟩

/-- C2: `parse_youtube_url` succeeds exactly on strings containing one of the
four accepted URL shapes with a valid 11-character identifier, and any
identifier it returns is a valid 11-character id occurring in the string under
one of those shapes; on any other string it returns `none`. -/
theorem parse_youtube_url_correct (s : String) :
    ((parse_youtube_url s).isSome = someShape s) ∧
    (∀ id, parse_youtube_url s = some id → matchesShape s id = true) := by
  constructor
  · cases hf : firstMatch patternAlts s.data with
    | none =>
      have hl : (parse_youtube_url s).isSome = false := by
        simp [parse_youtube_url, hf]
      rw [hl]
      symm
      simp only [someShape, List.any_eq_false, List.any_eq_true, List.mem_range]
      intro a ha hex
      obtain ⟨alt, halt, i, _, hcontra⟩ := hex
      have hnone := (matchAlts_none_iff a (s.data.drop i)).mp
        ((searchFrom_none_iff a s.data).mp ((firstMatch_none_iff patternAlts s.data).mp hf a ha) i)
        alt halt
      rw [hnone] at hcontra
      exact absurd hcontra (by simp)
    | some cs =>
      have hl : (parse_youtube_url s).isSome = true := by
        simp [parse_youtube_url, hf]
      rw [hl]
      symm
      obtain ⟨a, ha, hs⟩ := firstMatch_some_mem patternAlts s.data cs hf
      obtain ⟨i, hi, hmi⟩ := searchFrom_some_exists a s.data cs hs
      obtain ⟨alt, halt, hh⟩ := matchAlts_some_mem a (s.data.drop i) cs hmi
      simp only [someShape, List.any_eq_true, List.mem_range]
      exact ⟨a, ha, alt, halt, i, hi, by rw [hh]; rfl⟩
  · intro id hp
    simp only [parse_youtube_url, Option.map_eq_some'] at hp
    obtain ⟨cs, hf, hid⟩ := hp
    obtain ⟨a, ha, hs⟩ := firstMatch_some_mem patternAlts s.data cs hf
    obtain ⟨i, hi, hmi⟩ := searchFrom_some_exists a s.data cs hs
    obtain ⟨alt, halt, hh⟩ := matchAlts_some_mem a (s.data.drop i) cs hmi
    obtain ⟨hpre, hlen, hall⟩ := (matchHere_some_iff alt (s.data.drop i) cs).mp hh
    have hdata : id.data = cs := by
      rw [← hid]
    simp only [matchesShape, Bool.and_eq_true, List.any_eq_true, List.mem_range]
    refine ⟨?_, a, ha, alt, halt, i, hi, ?_⟩
    · simp only [validId, Bool.and_eq_true, hdata, hall, and_true]
      simp [hlen]
    · rw [hdata]
      exact hpre

/-- C2 witness: a canonical watch URL parses to its id, which occurs in the
string as an accepted shape. -/
theorem parse_youtube_url_correct_witness :
    matchesShape "https://www.youtube.com/watch?v=dQw4w9WgXcQ" "dQw4w9WgXcQ" = true :=
  (parse_youtube_url_correct "https://www.youtube.com/watch?v=dQw4w9WgXcQ").2
    "dQw4w9WgXcQ" (by decide)

end Transcribe
